import Mathlib

/-!
Shallow embedding of `projectBalance.py`: the `Transaction` model, the daily
diff projection `projectDiffs`, and the balance / save-balance / lower-limit
computations inside `createBalanceGraph`.

Modelling conventions:
* A Python `datetime` is a rational number of days since an epoch: the integer
  part (its floor) is the calendar date, the fractional part the time of day.
  `datetime.date()` is `Int.floor`.
* `when` is the tagged sum of the two accepted runtime types: a single
  `datetime`, or an `rrule` represented by the finite ordered list of
  datetimes it enumerates.
* Transaction amounts are integers (`ℤ`), as in every use in the source;
  the balance simulation runs over `ℚ` because `diff * (1 - saveProportion)`
  is fractional.
* Python's `float("inf")` seeds the backward minimum scan; `min(b, inf) = b`,
  so the empty-accumulator case of the recursion plays the role of infinity.
-/

namespace ProjectBalance

/-- A Python `datetime`, as a rational number of days since an epoch. -/
abbrev DateTime := ℚ

/-- `datetime.date()`: the calendar date, discarding the time of day. -/
def dateOf (d : DateTime) : ℤ := ⌊d⌋

/-- The two runtime types accepted for `Transaction.when`: a `datetime`, or an
`rrule` modelled by the finite ordered list of datetimes it enumerates. -/
inductive When where
  | single (d : DateTime)
  | recur (dates : List DateTime)
deriving DecidableEq

/-- The `Transaction` object after successful construction. -/
structure Transaction where
  when : When
  amount : ℤ
  name : Option String
deriving DecidableEq

/-- A Python value passed as the `when` argument of the constructor:
a `datetime`, an `rrule`, or any other (rejected) value. -/
inductive PyWhen where
  | date (d : DateTime)
  | rruleV (dates : List DateTime)
  | other
deriving DecidableEq

/-- `Transaction.__init__`: rejects a missing `when` or `amount`, then rejects
a `when` that is neither a `datetime` nor an `rrule`. -/
def Transaction.init : Option PyWhen → Option ℤ → Option String →
    Except String Transaction
  | none, _, _ => .error "Transaction missing required constructor parameter..."
  | some _, none, _ =>
      .error "Transaction missing required constructor parameter..."
  | some (.date d), some a, name => .ok ⟨.single d, a, name⟩
  | some (.rruleV l), some a, name => .ok ⟨.recur l, a, name⟩
  | some .other, some _, _ => .error "Transaction .when was not correct type"

/-- `Transaction.doesTransactForDay`: a `datetime` fires when the calendar
dates agree; an `rrule` fires when the day's calendar date is among the
calendar dates of the enumerated occurrences. -/
def Transaction.doesTransactForDay (t : Transaction) (dayTime : DateTime) :
    Bool :=
  match t.when with
  | .single w => dateOf w == dateOf dayTime
  | .recur ds => (ds.map dateOf).contains (dateOf dayTime)

/-- `Transaction.getAmountForDay`: the amount when the transaction fires on
that day, else `0`. -/
def Transaction.getAmountForDay (t : Transaction) (dayTime : DateTime) : ℤ :=
  if t.doesTransactForDay dayTime then t.amount else 0

/-- Python `str` of an integer: a minus sign for negatives, then the decimal
digits of the absolute value. -/
def pyStr (n : ℤ) : String :=
  (if n < 0 then "-" else "") ++ toString n.natAbs

/-- `Transaction.getFormattedName`: empty when a day is given and the
transaction does not fire then; otherwise a Python-truthy `name` prefix,
a `-` for negative amounts, `$`, and `str(amount)` with the sign character
sliced off (`str(self.amount)[1:]`) when the amount is negative. -/
def Transaction.getFormattedName (t : Transaction)
    (dayTime : Option DateTime) : String :=
  if (match dayTime with
      | some d => !t.doesTransactForDay d
      | none => false) then ""
  else
    (match t.name with
      | some s => if s = "" then "" else s ++ ": "
      | none => "")
    ++ (if t.amount < 0 then "-" else "") ++ "$"
    ++ (if t.amount < 0 then (pyStr t.amount).drop 1 else pyStr t.amount)

/-- The number of occurrences of `rrule(DAILY, dtstart, until)`: occurrences
are `dtstart + k` whole days, kept while `≤ until` (inclusive bound). -/
def rruleDailyCount (dtstart untl : DateTime) : ℕ :=
  if untl < dtstart then 0 else (⌊untl - dtstart⌋ + 1).toNat

/-- `rrule(DAILY, dtstart=fromDate, until=toDate)`: the list of occurrences,
each keeping `dtstart`'s time of day. -/
def rruleDaily (dtstart untl : DateTime) : List DateTime :=
  (List.range (rruleDailyCount dtstart untl)).map
    (fun (k : ℕ) => dtstart + (k : ℚ))

/-- `projectDiffs`: for each enumerated day, the sum of all transactions'
amounts for that day, and the comma-join of the non-empty formatted names. -/
def projectDiffs (transactions : List Transaction)
    (fromDate toDate : DateTime) : List ℤ × List String :=
  let days := rruleDaily fromDate toDate
  (days.map (fun day =>
      (transactions.map (fun t => t.getAmountForDay day)).sum),
   days.map (fun day =>
      String.intercalate ","
        ((transactions.map (fun t => t.getFormattedName (some day))).filter
          (fun txt => txt ≠ ""))))

/-- The forward loop of `createBalanceGraph` over `diffs`, carrying
`currentBalance` and `currentSaveBalance` and appending to both lists. -/
def simulateLoop (p : ℚ) : ℚ → ℚ → List ℚ → List ℚ × List ℚ
  | _, _, [] => ([], [])
  | cb, csb, d :: ds =>
    let cb' := cb + d
    let csb' := csb + (if d < 0 then d else d * (1 - p))
    let r := simulateLoop p cb' csb' ds
    (cb' :: r.1, csb' :: r.2)

/-- The balance simulation of `createBalanceGraph`: both running balances
start at `startAmount`. -/
def simulate (diffs : List ℚ) (startAmount saveProportion : ℚ) :
    List ℚ × List ℚ :=
  simulateLoop saveProportion startAmount startAmount diffs

/-- The backward loop of `createBalanceGraph`: walk `saveBalances` from last
to first, keeping `currentLowerLimit = min(balance, currentLowerLimit)`
(seeded with `float("inf")`, the identity of `min`, which the empty
accumulator case realises) and prepending it. -/
def computeLowerLimit : List ℚ → List ℚ
  | [] => []
  | b :: l =>
    match computeLowerLimit l with
    | [] => [b]
    | m :: rest => min b m :: m :: rest

/-- Modelled from the spec: `numberOfDaysInclusive(fromDate, toDate)`, the
number of calendar days from `fromDate` to `toDate` inclusive, comparing
calendar dates only. -/
def numberOfDaysInclusive (fromDate toDate : DateTime) : ℕ :=
  if dateOf fromDate ≤ dateOf toDate
  then (dateOf toDate - dateOf fromDate + 1).toNat else 0

/-- The spec's wording of `doesTransactForDay`: `when` is a single date with
the same calendar date, or a recurrence source whose enumerated dates,
compared by calendar date only, include the day's calendar date. -/
def doesTransactForDaySpec (t : Transaction) (dayTime : DateTime) : Prop :=
  match t.when with
  | .single w => dateOf w = dateOf dayTime
  | .recur ds => dateOf dayTime ∈ ds.map dateOf

/-- The spec's wording of `getFormattedName`: empty when a day is given and
the transaction does not fire then; otherwise the name and `": "` when a name
is set, then `"-$"` and the absolute value's digits for a negative amount,
else `"$"` and the amount's digits. -/
def getFormattedNameSpec (t : Transaction) (dayTime : Option DateTime) :
    String :=
  if (match dayTime with
      | some d => !t.doesTransactForDay d
      | none => false) then ""
  else
    (match t.name with
      | some s => if s = "" then "" else s ++ ": "
      | none => "")
    ++ (if t.amount < 0 then "-$" ++ toString t.amount.natAbs
        else "$" ++ toString t.amount.natAbs)

/-! Shared helper lemmas about the backward lower-limit scan. -/

theorem computeLowerLimit_cons (b : ℚ) (l : List ℚ) :
    computeLowerLimit (b :: l) =
      ((computeLowerLimit l).head?.elim b (min b)) :: computeLowerLimit l := by
  rw [computeLowerLimit]
  cases h : computeLowerLimit l <;> simp [h]

theorem computeLowerLimit_length (l : List ℚ) :
    (computeLowerLimit l).length = l.length := by
  induction l with
  | nil => rfl
  | cons b l ih => rw [computeLowerLimit_cons]; simp [ih]

theorem computeLowerLimit_getElem? (l : List ℚ) (i : ℕ) :
    (computeLowerLimit l)[i]? = (l.drop i).min? := by
  induction l generalizing i with
  | nil => simp [computeLowerLimit]
  | cons b l ih =>
    rw [computeLowerLimit_cons]
    cases i with
    | zero =>
      have hh : (computeLowerLimit l).head? = l.min? := by
        rw [List.head?_eq_getElem?, ih 0, List.drop_zero]
      simp only [List.getElem?_cons_zero, List.drop_zero, List.min?_cons, hh]
    | succ j =>
      simpa using ih j

/-! Shared helper lemmas about the forward balance simulation loop. -/

theorem simulateLoop_fst_head (ds : List ℚ) (p cb csb d : ℚ)
    (h : ds[0]? = some d) :
    (simulateLoop p cb csb ds).1[0]? = some (cb + d) := by
  cases ds with
  | nil => simp at h
  | cons x ds => simp_all [simulateLoop]

theorem simulateLoop_snd_head (ds : List ℚ) (p cb csb d : ℚ)
    (h : ds[0]? = some d) :
    (simulateLoop p cb csb ds).2[0]? =
      some (csb + (if d < 0 then d else d * (1 - p))) := by
  cases ds with
  | nil => simp at h
  | cons x ds => simp_all [simulateLoop]

theorem simulateLoop_fst_succ (ds : List ℚ) (p : ℚ) :
    ∀ (cb csb : ℚ) (i : ℕ) (a d : ℚ),
      (simulateLoop p cb csb ds).1[i]? = some a → ds[i + 1]? = some d →
      (simulateLoop p cb csb ds).1[i + 1]? = some (a + d) := by
  induction ds with
  | nil => intro cb csb i a d h; simp [simulateLoop] at h
  | cons x ds ih =>
    intro cb csb i a d h1 h2
    simp only [simulateLoop, List.getElem?_cons_succ] at h1 h2 ⊢
    cases i with
    | zero =>
      simp only [List.getElem?_cons_zero, Option.some.injEq] at h1
      subst h1
      exact simulateLoop_fst_head ds p _ _ d h2
    | succ j =>
      simp only [List.getElem?_cons_succ] at h1
      exact ih _ _ j a d h1 h2

theorem simulateLoop_snd_succ (ds : List ℚ) (p : ℚ) :
    ∀ (cb csb : ℚ) (i : ℕ) (a d : ℚ),
      (simulateLoop p cb csb ds).2[i]? = some a → ds[i + 1]? = some d →
      (simulateLoop p cb csb ds).2[i + 1]? =
        some (a + (if d < 0 then d else d * (1 - p))) := by
  induction ds with
  | nil => intro cb csb i a d h; simp [simulateLoop] at h
  | cons x ds ih =>
    intro cb csb i a d h1 h2
    simp only [simulateLoop, List.getElem?_cons_succ] at h1 h2 ⊢
    cases i with
    | zero =>
      simp only [List.getElem?_cons_zero, Option.some.injEq] at h1
      subst h1
      exact simulateLoop_snd_head ds p _ _ d h2
    | succ j =>
      simp only [List.getElem?_cons_succ] at h1
      exact ih _ _ j a d h1 h2

theorem simulateLoop_fst_length (ds : List ℚ) (p : ℚ) :
    ∀ cb csb, (simulateLoop p cb csb ds).1.length = ds.length := by
  induction ds with
  | nil => intro cb csb; rfl
  | cons x ds ih => intro cb csb; simp [simulateLoop, ih]

theorem simulateLoop_snd_length (ds : List ℚ) (p : ℚ) :
    ∀ cb csb, (simulateLoop p cb csb ds).2.length = ds.length := by
  induction ds with
  | nil => intro cb csb; rfl
  | cons x ds ih => intro cb csb; simp [simulateLoop, ih]

theorem simulateLoop_zero_save (ds : List ℚ) :
    ∀ cb, (simulateLoop 0 cb cb ds).2 = (simulateLoop 0 cb cb ds).1 := by
  induction ds with
  | nil => intro cb; rfl
  | cons d ds ih =>
    intro cb
    have hc : (if d < 0 then d else d * (1 - 0)) = d := by split <;> ring
    simp only [simulateLoop, hc]
    rw [ih (cb + d)]

theorem simulateLoop_save_le (p : ℚ) (hp0 : 0 ≤ p) :
    ∀ (ds : List ℚ) (cb csb : ℚ), csb ≤ cb →
      List.Forall₂ (· ≤ ·) (simulateLoop p cb csb ds).2
        (simulateLoop p cb csb ds).1 := by
  intro ds
  induction ds with
  | nil => intro cb csb h; exact List.Forall₂.nil
  | cons d ds ih =>
    intro cb csb h
    have hc : (if d < 0 then d else d * (1 - p)) ≤ d := by
      split
      · exact le_refl d
      · rename_i hd
        push_neg at hd
        calc d * (1 - p) ≤ d * 1 := by
              apply mul_le_mul_of_nonneg_left (by linarith) hd
          _ = d := mul_one d
    simp only [simulateLoop]
    exact List.Forall₂.cons (by linarith) (ih _ _ (by linarith))


/-! Shared helper lemmas about `projectDiffs` and the day enumeration. -/

theorem projectDiffs_fst_length (ts : List Transaction) (fd td : DateTime) :
    (projectDiffs ts fd td).1.length = rruleDailyCount fd td := by
  simp only [projectDiffs, rruleDaily, List.length_map, List.length_range]

theorem projectDiffs_snd_length (ts : List Transaction) (fd td : DateTime) :
    (projectDiffs ts fd td).2.length = rruleDailyCount fd td := by
  simp only [projectDiffs, rruleDaily, List.length_map, List.length_range]

theorem rruleDailyCount_eq_numberOfDaysInclusive (fd td : DateTime)
    (h1 : fd ≤ td) (h2 : Int.fract fd ≤ Int.fract td) :
    rruleDailyCount fd td = numberOfDaysInclusive fd td := by
  have hfl : ⌊fd⌋ ≤ ⌊td⌋ := Int.floor_le_floor h1
  have hsplit :
      td - fd = ((⌊td⌋ - ⌊fd⌋ : ℤ) : ℚ) + (Int.fract td - Int.fract fd) := by
    rw [Int.fract, Int.fract]
    push_cast
    ring
  have hfr : ⌊Int.fract td - Int.fract fd⌋ = 0 := by
    rw [Int.floor_eq_zero_iff]
    constructor
    · simpa using h2
    · have ha : Int.fract td < 1 := Int.fract_lt_one td
      have hb : 0 ≤ Int.fract fd := Int.fract_nonneg fd
      simp only [Set.mem_Ico] at *
      linarith
  have hfloor : ⌊td - fd⌋ = ⌊td⌋ - ⌊fd⌋ := by
    rw [hsplit, Int.floor_int_add, hfr, add_zero]
  rw [rruleDailyCount, numberOfDaysInclusive, if_neg (not_lt.mpr h1), hfloor]
  rw [dateOf, dateOf, if_pos hfl]

theorem rruleDailyCount_self (d : DateTime) : rruleDailyCount d d = 1 := by
  rw [rruleDailyCount, if_neg (lt_irrefl d)]
  norm_num

theorem rruleDailyCount_of_lt (fd td : DateTime) (h : td < fd) :
    rruleDailyCount fd td = 0 := by
  rw [rruleDailyCount, if_pos h]

/-! Shared helper lemmas about formatting and firing. -/

theorem dash_append_drop (s : String) : ("-" ++ s).drop 1 = s := by
  have h : ("-" ++ s).data = '-' :: s.data := by simp
  rw [String.drop_eq, h]
  rfl

theorem pyStr_drop_of_neg (n : ℤ) (h : n < 0) :
    (pyStr n).drop 1 = toString n.natAbs := by
  rw [pyStr, if_pos h]
  exact dash_append_drop _

theorem getFormattedName_eq_spec (t : Transaction) (d : Option DateTime) :
    t.getFormattedName d = getFormattedNameSpec t d := by
  rw [Transaction.getFormattedName.eq_def, getFormattedNameSpec.eq_def]
  split
  · rfl
  · by_cases hneg : t.amount < 0
    · simp only [if_pos hneg, pyStr_drop_of_neg _ hneg]
      apply String.ext
      simp [List.append_assoc]
    · simp only [if_neg hneg, pyStr, if_neg hneg]
      apply String.ext
      simp [List.append_assoc]

theorem doesTransact_iff (t : Transaction) (d : DateTime) :
    t.doesTransactForDay d = true ↔ doesTransactForDaySpec t d := by
  rw [Transaction.doesTransactForDay, doesTransactForDaySpec]
  cases t.when with
  | single w => simp
  | recur ds => simp [List.elem_iff]

theorem init_error_iff (w : Option PyWhen) (a : Option ℤ) (n : Option String) :
    (∃ e, Transaction.init w a n = Except.error e) ↔
      (w = none ∨ a = none ∨ w = some PyWhen.other) := by
  cases w with
  | none => simp [Transaction.init]
  | some pw =>
    cases a with
    | none => simp [Transaction.init]
    | some av => cases pw <;> simp [Transaction.init]

/-! Claim theorems. -/

/-- Claim C1: the lower-limit computation is a suffix minimum: for every
saveBalance sequence and every index `i`, the computed lower limit at `i` is
the minimum of `saveBalance[i..end]`; the output has the same length as the
input, and an empty input yields an empty output. -/
theorem claim1_lowerLimit_suffix_min :
    (∀ (saveBalances : List ℚ) (i : ℕ),
      (computeLowerLimit saveBalances)[i]? = (saveBalances.drop i).min?) ∧
    (∀ saveBalances : List ℚ,
      (computeLowerLimit saveBalances).length = saveBalances.length) ∧
    computeLowerLimit [] = [] :=
  ⟨computeLowerLimit_getElem?, computeLowerLimit_length, rfl⟩

/-- Claim C2: the forward simulation satisfies
`balance[i] = balance[i-1] + diffs[i]` and `saveBalance[i] = saveBalance[i-1]
+ (diffs[i] if diffs[i] < 0 else diffs[i] * (1 - saveProportion))`, both with
base case `startAmount`; and the concrete run `startAmount = 100`,
`diffs = [-10, 50, -5]`, `saveProportion = 1/2` gives
`balance = [90, 140, 135]`, `saveBalance = [90, 115, 110]`,
`lowerLimit = [90, 110, 110]`. -/
theorem claim2_balance_recurrence :
    (∀ (diffs : List ℚ) (startAmount saveProportion d : ℚ),
      diffs[0]? = some d →
      (simulate diffs startAmount saveProportion).1[0]? =
        some (startAmount + d)) ∧
    (∀ (diffs : List ℚ) (startAmount saveProportion : ℚ) (i : ℕ) (a d : ℚ),
      (simulate diffs startAmount saveProportion).1[i]? = some a →
      diffs[i + 1]? = some d →
      (simulate diffs startAmount saveProportion).1[i + 1]? = some (a + d)) ∧
    (∀ (diffs : List ℚ) (startAmount saveProportion d : ℚ),
      diffs[0]? = some d →
      (simulate diffs startAmount saveProportion).2[0]? =
        some (startAmount + (if d < 0 then d else d * (1 - saveProportion)))) ∧
    (∀ (diffs : List ℚ) (startAmount saveProportion : ℚ) (i : ℕ) (a d : ℚ),
      (simulate diffs startAmount saveProportion).2[i]? = some a →
      diffs[i + 1]? = some d →
      (simulate diffs startAmount saveProportion).2[i + 1]? =
        some (a + (if d < 0 then d else d * (1 - saveProportion)))) ∧
    simulate [-10, 50, -5] 100 (1/2) = ([90, 140, 135], [90, 115, 110]) ∧
    computeLowerLimit [90, 115, 110] = [90, 110, 110] := by
  refine ⟨?_, ?_, ?_, ?_, ?_, ?_⟩
  · intro diffs s p d h
    exact simulateLoop_fst_head diffs p s s d h
  · intro diffs s p i a d h1 h2
    exact simulateLoop_fst_succ diffs p s s i a d h1 h2
  · intro diffs s p d h
    exact simulateLoop_snd_head diffs p s s d h
  · intro diffs s p i a d h1 h2
    exact simulateLoop_snd_succ diffs p s s i a d h1 h2
  · norm_num [simulate, simulateLoop]
  · norm_num [computeLowerLimit, min_def]

/-- Witness for claim C2: the balance recurrence applied at the concrete
input `diffs = [-10, 50, -5]`, `startAmount = 100`, index `0`. -/
theorem claim2_witness :
    ([(-10 : ℚ), 50, -5][0]? = some ((-10 : ℚ))) ∧
    (simulate [-10, 50, -5] 100 (1/2)).1[0]? = some ((100 : ℚ) + (-10)) :=
  ⟨rfl, claim2_balance_recurrence.1 [-10, 50, -5] 100 (1/2) (-10) rfl⟩

/-- Claim C3 counterexample: with `fromDate` at noon of day 0 and `toDate` at
midnight of day 1, the enumeration produces one entry although the range
covers two calendar days, so the length is not the inclusive calendar-day
count regardless of time-of-day components. -/
theorem claim3_counterexample :
    (projectDiffs [] (1/2 : ℚ) 1).1.length = 1 ∧
    (projectDiffs [] (1/2 : ℚ) 1).2.length = 1 ∧
    numberOfDaysInclusive (1/2 : ℚ) 1 = 2 ∧
    ¬((projectDiffs [] (1/2 : ℚ) 1).1.length =
        numberOfDaysInclusive (1/2 : ℚ) 1) := by
  have h1 : (projectDiffs [] (1/2 : ℚ) 1).1.length = 1 := by
    rw [projectDiffs_fst_length]
    norm_num [rruleDailyCount]
  have h2 : (projectDiffs [] (1/2 : ℚ) 1).2.length = 1 := by
    rw [projectDiffs_snd_length]
    norm_num [rruleDailyCount]
  have h3 : numberOfDaysInclusive (1/2 : ℚ) 1 = 2 := by
    norm_num [numberOfDaysInclusive, dateOf]
    decide
  refine ⟨h1, h2, h3, ?_⟩
  rw [h1, h3]
  norm_num

/-- Claim C3 as amended: `diffs` and `labels` always have equal length, the
common length is the number of `rrule(DAILY)` occurrences
(`⌊toDate - fromDate⌋ + 1` when `fromDate ≤ toDate`, else `0`);
`fromDate > toDate` yields empty sequences, `fromDate = toDate` yields
single-element sequences, and the length equals the inclusive calendar-day
count whenever `fromDate`'s time of day is at most `toDate`'s. -/
theorem claim3_amended :
    ∀ (transactions : List Transaction) (fromDate toDate : DateTime),
      (projectDiffs transactions fromDate toDate).1.length =
        (projectDiffs transactions fromDate toDate).2.length ∧
      (projectDiffs transactions fromDate toDate).1.length =
        rruleDailyCount fromDate toDate ∧
      (toDate < fromDate →
        (projectDiffs transactions fromDate toDate).1 = [] ∧
        (projectDiffs transactions fromDate toDate).2 = []) ∧
      (fromDate = toDate →
        (projectDiffs transactions fromDate toDate).1.length = 1) ∧
      (fromDate ≤ toDate → Int.fract fromDate ≤ Int.fract toDate →
        (projectDiffs transactions fromDate toDate).1.length =
          numberOfDaysInclusive fromDate toDate) := by
  intro ts fd td
  refine ⟨?_, projectDiffs_fst_length ts fd td, ?_, ?_, ?_⟩
  · rw [projectDiffs_fst_length, projectDiffs_snd_length]
  · intro h
    constructor
    · have hl := projectDiffs_fst_length ts fd td
      rw [rruleDailyCount_of_lt fd td h] at hl
      exact List.eq_nil_of_length_eq_zero hl
    · have hl := projectDiffs_snd_length ts fd td
      rw [rruleDailyCount_of_lt fd td h] at hl
      exact List.eq_nil_of_length_eq_zero hl
  · intro h
    subst h
    rw [projectDiffs_fst_length, rruleDailyCount_self]
  · intro hle hfr
    rw [projectDiffs_fst_length,
      rruleDailyCount_eq_numberOfDaysInclusive fd td hle hfr]

/-- Witness for the amended claim C3: concrete empty, single-day, and
calendar-day-count cases. -/
theorem claim3_amended_witness :
    ((projectDiffs [] (1 : ℚ) 0).1 = [] ∧ (projectDiffs [] (1 : ℚ) 0).2 = []) ∧
    (projectDiffs [] (0 : ℚ) 0).1.length = 1 ∧
    (projectDiffs [] (0 : ℚ) 0).1.length = numberOfDaysInclusive (0 : ℚ) 0 :=
  ⟨(claim3_amended [] 1 0).2.2.1 (by norm_num),
   (claim3_amended [] 0 0).2.2.2.1 rfl,
   (claim3_amended [] 0 0).2.2.2.2 (le_refl 0) (le_refl _)⟩

/-- Claim C4: the computed lower limit is monotonically non-decreasing in the
index, bounded above by the save balance pointwise, and agrees with the save
balance at the last index of a non-empty sequence. -/
theorem claim4_lowerLimit_invariants :
    ∀ saveBalances : List ℚ,
      (∀ (i : ℕ) (a b : ℚ),
        (computeLowerLimit saveBalances)[i]? = some a →
        (computeLowerLimit saveBalances)[i + 1]? = some b → a ≤ b) ∧
      (∀ (i : ℕ) (a v : ℚ),
        (computeLowerLimit saveBalances)[i]? = some a →
        saveBalances[i]? = some v → a ≤ v) ∧
      (saveBalances ≠ [] →
        (computeLowerLimit saveBalances)[saveBalances.length - 1]? =
          saveBalances[saveBalances.length - 1]?) := by
  intro l
  refine ⟨?_, ?_, ?_⟩
  · intro i a b h1 h2
    rw [computeLowerLimit_getElem?] at h1 h2
    have hlt : i < l.length := by
      by_contra hge
      rw [List.drop_eq_nil_of_le (by omega)] at h2
      simp at h2
    rw [List.drop_eq_getElem_cons hlt, List.min?_cons, h2] at h1
    simp only [Option.elim, Option.some.injEq] at h1
    subst h1
    exact min_le_right _ _
  · intro i a v h1 h2
    rw [computeLowerLimit_getElem?] at h1
    rcases List.getElem?_eq_some_iff.mp h2 with ⟨hlt, hv⟩
    rw [List.drop_eq_getElem_cons hlt, List.min?_cons, hv] at h1
    cases hm : (l.drop (i + 1)).min? with
    | none =>
      rw [hm] at h1
      simp only [Option.elim, Option.some.injEq] at h1
      subst h1
      exact le_refl v
    | some m =>
      rw [hm] at h1
      simp only [Option.elim, Option.some.injEq] at h1
      subst h1
      exact min_le_left _ _
  · intro hne
    have hlen : 0 < l.length := List.length_pos.mpr hne
    have hlt : l.length - 1 < l.length := by omega
    rw [computeLowerLimit_getElem?, List.drop_eq_getElem_cons hlt,
      List.drop_eq_nil_of_le (by omega), List.min?_cons]
    simp [List.getElem?_eq_getElem hlt]


/-- Witness for claim C4: the invariants applied to the concrete save-balance
sequence `[5, 3, 4]`, whose lower limit is `[3, 3, 4]`. -/
theorem claim4_witness :
    (3 : ℚ) ≤ 3 ∧ (3 : ℚ) ≤ 5 ∧
    (computeLowerLimit [5, 3, 4])[2]? = [(5 : ℚ), 3, 4][2]? :=
  ⟨(claim4_lowerLimit_invariants [5, 3, 4]).1 0 3 3
      (by norm_num [computeLowerLimit, min_def])
      (by norm_num [computeLowerLimit, min_def]),
   (claim4_lowerLimit_invariants [5, 3, 4]).2.1 0 3 5
      (by norm_num [computeLowerLimit, min_def]) rfl,
   (claim4_lowerLimit_invariants [5, 3, 4]).2.2 (List.cons_ne_nil _ _)⟩

/-- Claim C5: `getAmountForDay` returns the amount exactly when the
transaction fires on the day, else `0`; and `doesTransactForDay` holds iff
`when` is a single date with the day's calendar date, or a recurrence source
whose enumerated dates (compared by calendar date) include the day's. -/
theorem claim5_amount_matches_firing :
    ∀ (t : Transaction) (d : DateTime),
      t.getAmountForDay d =
        (if t.doesTransactForDay d then t.amount else 0) ∧
      (t.doesTransactForDay d = true ↔ doesTransactForDaySpec t d) :=
  fun t d => ⟨rfl, doesTransact_iff t d⟩

/-- Claim C6: `getFormattedName` agrees with the spec's description (empty
when a day is given and the transaction is inactive; otherwise optional
`"name: "` prefix, then `"-$"` plus the absolute value's digits for negative
amounts, else `"$"` plus the digits), and the concrete cases from the spec. -/
theorem claim6_formatted_name :
    (∀ (t : Transaction) (d : Option DateTime),
      t.getFormattedName d = getFormattedNameSpec t d) ∧
    (Transaction.mk (When.single 0) 20 none).getFormattedName none = "$20" ∧
    (Transaction.mk (When.single 0) (-20) (some "Wowe")).getFormattedName
        none = "Wowe: -$20" ∧
    (Transaction.mk (When.single 0) 20 none).getFormattedName (some 0) =
        "$20" ∧
    (Transaction.mk (When.single 0) 20 none).getFormattedName (some 1) = "" := by
  refine ⟨getFormattedName_eq_spec, by decide, by decide, ?_, ?_⟩
  · norm_num [Transaction.getFormattedName, Transaction.doesTransactForDay,
      dateOf, pyStr]
    decide
  · norm_num [Transaction.getFormattedName, Transaction.doesTransactForDay,
      dateOf]

/-- Claim C7: `Transaction` construction errors exactly when `when` is
absent, `amount` is absent, or `when` has an unrecognized type; successful
construction stores exactly the given `when`, `amount` (zero included), and
`name`. -/
theorem claim7_constructor :
    (∀ (w : Option PyWhen) (a : Option ℤ) (n : Option String),
      (∃ e, Transaction.init w a n = Except.error e) ↔
        (w = none ∨ a = none ∨ w = some PyWhen.other)) ∧
    (∀ (d : DateTime) (a : ℤ) (n : Option String),
      Transaction.init (some (PyWhen.date d)) (some a) n =
        Except.ok (Transaction.mk (When.single d) a n)) ∧
    (∀ (l : List DateTime) (a : ℤ) (n : Option String),
      Transaction.init (some (PyWhen.rruleV l)) (some a) n =
        Except.ok (Transaction.mk (When.recur l) a n)) :=
  ⟨init_error_iff, fun _ _ _ => rfl, fun _ _ _ => rfl⟩

/-- Claim C8: with `saveProportion = 0` the savings-adjusted balance equals
the plain balance at every index. -/
theorem claim8_zero_save_roundtrip :
    ∀ (diffs : List ℚ) (startAmount : ℚ),
      (simulate diffs startAmount 0).2 = (simulate diffs startAmount 0).1 :=
  fun diffs s => simulateLoop_zero_save diffs s

/-- Claim C9: `projectDiffs`, the balance simulation, and the lower-limit
computation are deterministic pure functions: identical inputs give
identical outputs (and, the embedding being purely functional, no input is
mutated). -/
theorem claim9_determinism :
    ∀ (ts ts' : List Transaction) (fd fd' td td' : DateTime)
      (diffs diffs' : List ℚ) (s s' p p' : ℚ) (sb sb' : List ℚ),
      ts = ts' → fd = fd' → td = td' → diffs = diffs' → s = s' → p = p' →
      sb = sb' →
      projectDiffs ts fd td = projectDiffs ts' fd' td' ∧
      simulate diffs s p = simulate diffs' s' p' ∧
      computeLowerLimit sb = computeLowerLimit sb' := by
  intro ts ts' fd fd' td td' diffs diffs' s s' p p' sb sb' h1 h2 h3 h4 h5 h6 h7
  subst h1; subst h2; subst h3; subst h4; subst h5; subst h6; subst h7
  exact ⟨rfl, rfl, rfl⟩

/-- Witness for claim C9: determinism applied at concrete inputs. -/
theorem claim9_witness :
    projectDiffs [] 0 0 = projectDiffs [] 0 0 ∧
    simulate [1] 2 0 = simulate [1] 2 0 ∧
    computeLowerLimit [3] = computeLowerLimit [3] :=
  claim9_determinism [] [] 0 0 0 0 [1] [1] 2 2 0 0 [3] [3]
    rfl rfl rfl rfl rfl rfl rfl

/-- Claim C10: with `0 ≤ saveProportion ≤ 1` the savings-adjusted balance
never exceeds the plain balance, pointwise along the two sequences. -/
theorem claim10_save_le_balance :
    ∀ (diffs : List ℚ) (startAmount saveProportion : ℚ),
      0 ≤ saveProportion → saveProportion ≤ 1 →
      List.Forall₂ (· ≤ ·) (simulate diffs startAmount saveProportion).2
        (simulate diffs startAmount saveProportion).1 := by
  intro diffs s p hp0 _hp1
  exact simulateLoop_save_le p hp0 diffs s s (le_refl s)

/-- Witness for claim C10: the pointwise bound applied at the concrete input
`diffs = [3, -2]`, `startAmount = 5`, `saveProportion = 1/2`. -/
theorem claim10_witness :
    (0 : ℚ) ≤ 1/2 ∧ (1/2 : ℚ) ≤ 1 ∧
    List.Forall₂ (· ≤ ·) (simulate [3, -2] 5 (1/2)).2
      (simulate [3, -2] 5 (1/2)).1 :=
  ⟨by norm_num, by norm_num,
   claim10_save_le_balance [3, -2] 5 (1/2) (by norm_num) (by norm_num)⟩

end ProjectBalance

